import Mathlib

/-!
Verification of the sparseml kernel-sparsity (pruning) core.

The definitions below shallowly embed, over `ℚ`-valued tensors flattened to
lists, the two sensitivity-analysis procedures of
`neuralmagicML/tensorflow/recal/sensitivity_ks.py` and — modelled from the
specification where the implementation is not part of the sources — the
pruning-modifier scheduling state machine, mask application from a state
dict, and modifier serialization.
-/

/-! ## Python primitives used by `approx_ks_loss_sensitivity` -/

/-- Errors a Python run of the approximate analysis can raise: comparing an
`int` with `None` (`TypeError`) or indexing out of range (`IndexError`). -/
inductive PyError where
  | typeError
  | indexError
deriving DecidableEq, Repr

/-- Python 3 `round` on one argument: round half to even (banker's rounding). -/
def pyRound (q : ℚ) : ℤ :=
  let f := ⌊q⌋
  let r := q - (f : ℚ)
  if r < 1 / 2 then f
  else if 1 / 2 < r then f + 1
  else if f % 2 = 0 then f else f + 1

/-- Python list indexing `l[i]`: a negative index wraps once from the end,
anything still out of range is an `IndexError` (modelled as `none`). -/
def pyGet (l : List ℚ) (i : ℤ) : Option ℚ :=
  let n : ℤ := l.length
  let j := if i < 0 then i + n else i
  if 0 ≤ j ∧ j < n then l[j.toNat]? else none

/-- Python list slicing `l[a:b]`: negative bounds wrap once from the end and
everything is clamped into range, so a slice never fails. -/
def pySlice (l : List ℚ) (a b : ℤ) : List ℚ :=
  let n : ℤ := l.length
  let a1 := if a < 0 then a + n else a
  let b1 := if b < 0 then b + n else b
  let a2 := max 0 a1
  let b2 := min n b1
  (l.drop a2.toNat).take (b2 - a2).toNat

/-- `numpy.mean` of a non-empty list (sum divided by length). -/
def listMean (l : List ℚ) : ℚ := l.sum / (l.length : ℚ)

/-! ## The sensitivity analysis result records -/

/-- One record appended by `KSLossSensitivityAnalysis.add_result`: name of the
op input tensor, op index, sparsity level, measured or estimated value, and
the baseline flag. -/
structure KSResult where
  name : String
  index : ℕ
  sparsity : ℚ
  value : ℚ
  baseline : Bool
deriving DecidableEq, Repr

/-- The `1e-9` threshold under which a sparsity level counts as baseline. -/
def baselineEps : ℚ := 1 / 1000000000

/-! ## `approx_ks_loss_sensitivity` (sensitivity_ks.py lines 88-142) -/

/-- The cut index for a sparsity level over `n` sorted magnitudes:
`val_index = round(sparsity * len(values))` clamped to `len(values) - 1`
when it reaches `len(values)`. -/
def cutIndex (n : ℕ) (sparsity : ℚ) : ℤ :=
  let v := pyRound (sparsity * (n : ℚ))
  if (n : ℤ) ≤ v then (n : ℤ) - 1 else v

/-- Sorted ascending absolute values of a flattened weight tensor:
`numpy.sort(numpy.abs(weight.reshape(-1)))`. -/
def sortedAbs (weights : List ℚ) : List ℚ :=
  List.insertionSort (· ≤ ·) (weights.map (fun w => |w|))

/-- One iteration of the `for sparsity in sparsity_levels` loop of
`approx_ks_loss_sensitivity`, threading `prev_index` (initially Python
`None`) and the analysis records.  A level `≤ 1e-9` records a baseline entry
with sparsity `0.0` and value `0.0`; otherwise the code compares
`val_index > prev_index` (a `TypeError` when `prev_index` is still `None`)
and records either the mean of `values[prev_index:val_index]` or the single
element `values[val_index]`. -/
def approxStep (values : List ℚ) (name : String) (opIndex : ℕ)
    (st : Option ℤ × List KSResult) (sparsity : ℚ) :
    Except PyError (Option ℤ × List KSResult) :=
  let valIndex := cutIndex values.length sparsity
  if sparsity ≤ baselineEps then
    Except.ok (some (valIndex + 1), st.2 ++ [⟨name, opIndex, 0, 0, true⟩])
  else
    match st.1 with
    | none => Except.error PyError.typeError
    | some prev =>
      if prev < valIndex then
        Except.ok (some (valIndex + 1),
          st.2 ++ [⟨name, opIndex, sparsity, listMean (pySlice values prev valIndex), false⟩])
      else
        match pyGet values valIndex with
        | none => Except.error PyError.indexError
        | some v =>
          Except.ok (some (valIndex + 1), st.2 ++ [⟨name, opIndex, sparsity, v, false⟩])

/-- The whole per-parameter loop of `approx_ks_loss_sensitivity` for one
prunable op: sort the absolute weight values, then run `approxStep` for each
requested sparsity level starting from `prev_index = None`. -/
def approxParam (name : String) (opIndex : ℕ) (weights : List ℚ)
    (levels : List ℚ) : Except PyError (List KSResult) :=
  let values := sortedAbs weights
  Except.map Prod.snd (levels.foldlM (approxStep values name opIndex) (none, []))

/-- `approx_ks_loss_sensitivity`: run the per-parameter analysis over every
prunable op (given as name and flattened weights) in order, concatenating
the records. -/
def approx_ks_loss_sensitivity (ops : List (String × List ℚ))
    (levels : List ℚ) : Except PyError (List KSResult) :=
  ops.enum.foldlM
    (fun acc p => Except.map (acc ++ ·) (approxParam p.2.1 p.1 p.2.2 levels)) []

/-! ## `one_shot_ks_loss_sensitivity` (sensitivity_ks.py lines 145-233)

The TensorFlow session is modelled as external state: one current sparsity
per pruning op (the mask each op's update op last installed).  Every
`sess.run` the function performs is recorded as an event, with the mask
state visible at that point, so that ordering and frame properties can be
stated.  The caller-supplied loss run (`loss_tensor` plus any
`add_ops_creator`/`feed_dict_creator` ops for the step) is an opaque
function of the mask state and the step number that may raise. -/

/-- A `sess.run` performed by `one_shot_ks_loss_sensitivity`:
initializing the mask variables, running one op's mask-update op with a fed
sparsity, or one measurement run of the loss tensor.  Each event carries the
mask state (sparsity per op) in effect right after it. -/
inductive SessEvent where
  | initVars (masks : List ℚ)
  | update (op : ℕ) (sparsity : ℚ) (masks : List ℚ)
  | measure (op : ℕ) (step : ℕ) (masks : List ℚ)
deriving DecidableEq, Repr

/-- Outcome of a one-shot analysis run: the final mask state of the session,
the full trace of session runs, and either the analysis records or the
error that propagated out of a measurement. -/
structure OneShotOutcome where
  masks : List ℚ
  trace : List SessEvent
  result : Except String (List KSResult)
deriving Repr

/-- The `for step in range(steps_per_measurement)` loop for one op at one
sparsity level: run the loss, append a record flagged baseline when
`sparsity_level < 1e-9`, stop at the first error.  `step` is the current
step number, the second argument the number of steps left. -/
def oneShotSteps (lossFn : List ℚ → ℕ → Except String ℚ) (masks : List ℚ)
    (name : String) (opIndex : ℕ) (level : ℚ) :
    ℕ → ℕ → List SessEvent × Except String (List KSResult)
  | _, 0 => ([], Except.ok [])
  | step, n + 1 =>
    match lossFn masks step with
    | Except.error e => ([SessEvent.measure opIndex step masks], Except.error e)
    | Except.ok loss =>
      match oneShotSteps lossFn masks name opIndex level (step + 1) n with
      | (tr, res) =>
        (SessEvent.measure opIndex step masks :: tr,
          Except.map
            (fun rs => ⟨name, opIndex, level, loss, decide (level < baselineEps)⟩ :: rs)
            res)

/-- The `for sparsity_level in sparsity_levels` loop for one op: run the
op's mask-update op with the level fed in, then measure
`steps_per_measurement` times. -/
def oneShotLevels (lossFn : List ℚ → ℕ → Except String ℚ) (name : String)
    (opIndex : ℕ) (steps : ℕ) :
    List ℚ → List ℚ → List ℚ × List SessEvent × Except String (List KSResult)
  | masks, [] => (masks, [], Except.ok [])
  | masks, level :: rest =>
    let masks1 := masks.set opIndex level
    match oneShotSteps lossFn masks1 name opIndex level 0 steps with
    | (tr, Except.error e) =>
      (masks1, SessEvent.update opIndex level masks1 :: tr, Except.error e)
    | (tr, Except.ok rs) =>
      match oneShotLevels lossFn name opIndex steps masks1 rest with
      | (masks2, tr2, res2) =>
        (masks2, SessEvent.update opIndex level masks1 :: tr ++ tr2,
          Except.map (rs ++ ·) res2)

/-- The `for op_index, sparse_op_vars in enumerate(op_vars)` loop: sweep all
levels for one op, then run its mask-update op once more with sparsity
`0.0` before moving to the next op. -/
def oneShotOps (lossFn : List ℚ → ℕ → Except String ℚ) (steps : ℕ)
    (levels : List ℚ) :
    List ℚ → ℕ → List String → List ℚ × List SessEvent × Except String (List KSResult)
  | masks, _, [] => (masks, [], Except.ok [])
  | masks, opIndex, name :: rest =>
    match oneShotLevels lossFn name opIndex steps masks levels with
    | (masks1, tr1, Except.error e) => (masks1, tr1, Except.error e)
    | (masks1, tr1, Except.ok rs) =>
      let masks2 := masks1.set opIndex 0
      match oneShotOps lossFn steps levels masks2 (opIndex + 1) rest with
      | (masks3, tr3, res3) =>
        (masks3, tr1 ++ SessEvent.update opIndex 0 masks2 :: tr3,
          Except.map (rs ++ ·) res3)

/-- `one_shot_ks_loss_sensitivity`: initialize the mask variables (every op
unpruned, sparsity `0`), then sweep op by op.  `ops` lists the
`op_vars.op_input.name` of each pruning op in order. -/
def one_shot_ks_loss_sensitivity (ops : List String) (levels : List ℚ)
    (steps : ℕ) (lossFn : List ℚ → ℕ → Except String ℚ) : OneShotOutcome :=
  let masks0 : List ℚ := List.replicate ops.length 0
  let r := oneShotOps lossFn steps levels masks0 0 ops
  ⟨r.1, SessEvent.initVars masks0 :: r.2.1, r.2.2⟩

/-- The total number of progress units the progress bar counts:
`len(op_vars) * len(sparsity_levels) * steps_per_measurement`. -/
def oneShotProgressTotal (ops : List String) (levels : List ℚ) (steps : ℕ) : ℕ :=
  ops.length * levels.length * steps

/-! ## The pruning-modifier scheduling state machine

The pytorch implementation of the pruning modifiers is not part of the
sources (only its test suite is), so the state machine is modelled from the
specification, with the test suite fixing the ambiguous points. -/

/-- Interpolation kinds of a gradual pruning modifier. -/
inductive InterFunc where
  | linear
  | cubic
  | inv_cubic
deriving DecidableEq, Repr

/-- Modelled from the spec: the `PruningModifier` schedule entity with the
config fields of a `GMPruningModifier` (data model section 3; epoch values
and sparsities are fractional, modelled over `ℚ`). -/
structure GMPruningModifier where
  init_sparsity : ℚ
  final_sparsity : ℚ
  start_epoch : ℚ
  end_epoch : ℚ
  update_frequency : ℚ
  params : List String
  inter_func : InterFunc
  mask_type : String
  global_sparsity : Bool
  phased : Bool
deriving DecidableEq, Repr

/-- Modelled from the spec: whether `epoch` lies an integer number of
`update_frequency` intervals past `start_epoch` (the periodic boundaries of
`update_ready`). -/
def isPeriodicBoundary (epoch startEpoch freq : ℚ) : Bool :=
  if freq = 0 then decide (epoch = startEpoch)
  else
    let q := (epoch - startEpoch) / freq
    decide (q.den = 1 ∧ 0 ≤ q.num)

/-- Modelled from the spec (section 4.3): `update_ready(epoch, ...)` is true
exactly at `epoch == start_epoch`, at `epoch == end_epoch` when
`end_epoch ≥ 0`, and — for periodic variants, `update_frequency > -1` — at
each epoch an integer multiple of `update_frequency` past `start_epoch` and
strictly less than `end_epoch`. -/
def update_ready (m : GMPruningModifier) (epoch : ℚ) : Bool :=
  decide (epoch = m.start_epoch) ||
    (decide (0 ≤ m.end_epoch) && decide (epoch = m.end_epoch)) ||
    (decide (-1 < m.update_frequency) && decide (m.start_epoch < epoch) &&
      decide (epoch < m.end_epoch) &&
      isPeriodicBoundary epoch m.start_epoch m.update_frequency)

/-- Modelled from the spec: the clamped schedule progress
`clamp((epoch - start_epoch) / (end_epoch - start_epoch), 0, 1)`. -/
def schedProgress (m : GMPruningModifier) (epoch : ℚ) : ℚ :=
  max 0 (min 1 ((epoch - m.start_epoch) / (m.end_epoch - m.start_epoch)))

/-- Modelled from the spec: the interpolation functions of section 4.3.
`linear` is `init + progress * (final - init)`, `cubic` is
`init + (final - init) * (1 - (1 - progress)^3)`, and `inv_cubic` (the spec
says only that it mirrors `cubic`) is the reflected curve
`init + (final - init) * progress^3`. -/
def interpolate (f : InterFunc) (progress init final : ℚ) : ℚ :=
  match f with
  | InterFunc.linear => init + progress * (final - init)
  | InterFunc.cubic => init + (final - init) * (1 - (1 - progress) ^ 3)
  | InterFunc.inv_cubic => init + (final - init) * progress ^ 3

/-- Modelled from the spec: the sparsity a (non-phased) gradual modifier
applies at a ready epoch — the interpolated value, forced to
`init_sparsity` exactly at `start_epoch` and to `final_sparsity` exactly at
`end_epoch`. -/
def sparsityAt (m : GMPruningModifier) (epoch : ℚ) : ℚ :=
  if epoch = m.start_epoch then m.init_sparsity
  else if epoch = m.end_epoch then m.final_sparsity
  else interpolate m.inter_func (schedProgress m epoch) m.init_sparsity m.final_sparsity

/-- Modelled from the spec: the index of the `update_frequency` interval an
epoch falls in, counted from `start_epoch`. -/
def phaseIndex (m : GMPruningModifier) (epoch : ℚ) : ℤ :=
  ⌊(epoch - m.start_epoch) / m.update_frequency⌋

/-- Modelled from the spec: phased mode alternates pruning on and off every
`update_frequency` interval — intervals with even `phaseIndex` (the first,
third, ... intervals) apply the computed sparsity, the others force
sparsity back to `0`; per the general boundary rule (and the test suite's
expectation at `end_epoch`) the final boundary still applies
`final_sparsity`. -/
def phasedSparsityAt (m : GMPruningModifier) (epoch : ℚ) : ℚ :=
  if epoch = m.end_epoch then m.final_sparsity
  else if phaseIndex m epoch % 2 = 0 then sparsityAt m epoch
  else 0

/-- Modelled from the spec: the sparsity a `scheduled_update` at a ready
epoch applies. -/
def appliedSparsityAt (m : GMPruningModifier) (epoch : ℚ) : ℚ :=
  if m.phased then phasedSparsityAt m epoch else sparsityAt m epoch

/-- Modelled from the spec: `scheduled_update` acting on the
`applied_sparsity` attribute (`none` until the first application): when
`update_ready` holds it recomputes and applies the scheduled sparsity,
otherwise nothing happens. -/
def scheduled_update (m : GMPruningModifier) (applied : Option ℚ)
    (epoch : ℚ) : Option ℚ :=
  if update_ready m epoch then some (appliedSparsityAt m epoch) else applied

/-! ## Mask application and the state-dict bridge -/

/-- Modelled from the spec: applying a mask to a live parameter tensor is an
element-wise multiply (mask values in `{0, 1}`). -/
def applyMask (param mask : List ℚ) : List ℚ :=
  List.zipWith (· * ·) param mask

/-- Modelled from the spec: `load_state_dict` over a model given as named
flattened parameters.  The state dict maps `"<param_name>.sparsity_mask"`
keys to mask tensors; every covered parameter has its mask re-applied to
the live values immediately upon load, other parameters are untouched. -/
def load_state_dict (model : List (String × List ℚ))
    (state : List (String × List ℚ)) : List (String × List ℚ) :=
  model.map fun p =>
    match state.lookup (p.1 ++ ".sparsity_mask") with
    | some mask => (p.1, applyMask p.2 mask)
    | none => p

/-! ## Serialization of a `GMPruningModifier` -/

/-- A value of one field of a serialized modifier mapping. -/
inductive FieldValue where
  | num (q : ℚ)
  | str (s : String)
  | strList (l : List String)
  | bool (b : Bool)
deriving DecidableEq, Repr

/-- The serialized name of an interpolation function. -/
def interFuncName (f : InterFunc) : String :=
  match f with
  | InterFunc.linear => "linear"
  | InterFunc.cubic => "cubic"
  | InterFunc.inv_cubic => "inverse_cubic"

/-- Parse an interpolation function back from its serialized name. -/
def parseInterFunc (s : String) : Option InterFunc :=
  if s = "linear" then some InterFunc.linear
  else if s = "cubic" then some InterFunc.cubic
  else if s = "inverse_cubic" then some InterFunc.inv_cubic
  else none

/-- Modelled from the spec (section 6): a modifier serializes to a tagged
mapping holding exactly its config fields. -/
def serialize (m : GMPruningModifier) : List (String × FieldValue) :=
  [("init_sparsity", FieldValue.num m.init_sparsity),
   ("final_sparsity", FieldValue.num m.final_sparsity),
   ("start_epoch", FieldValue.num m.start_epoch),
   ("end_epoch", FieldValue.num m.end_epoch),
   ("update_frequency", FieldValue.num m.update_frequency),
   ("params", FieldValue.strList m.params),
   ("inter_func", FieldValue.str (interFuncName m.inter_func)),
   ("mask_type", FieldValue.str m.mask_type),
   ("global_sparsity", FieldValue.bool m.global_sparsity),
   ("phased", FieldValue.bool m.phased)]

/-- Look a rational field up in a serialized mapping. -/
def getNum (fields : List (String × FieldValue)) (key : String) : Option ℚ :=
  match fields.lookup key with
  | some (FieldValue.num q) => some q
  | _ => none

/-- Look a string field up in a serialized mapping. -/
def getStr (fields : List (String × FieldValue)) (key : String) : Option String :=
  match fields.lookup key with
  | some (FieldValue.str s) => some s
  | _ => none

/-- Look a string-list field up in a serialized mapping. -/
def getStrList (fields : List (String × FieldValue)) (key : String) :
    Option (List String) :=
  match fields.lookup key with
  | some (FieldValue.strList l) => some l
  | _ => none

/-- Look a boolean field up in a serialized mapping. -/
def getBool (fields : List (String × FieldValue)) (key : String) : Option Bool :=
  match fields.lookup key with
  | some (FieldValue.bool b) => some b
  | _ => none

/-- Modelled from the spec: deserializing a modifier mapping reads every
config field back; an ill-typed or missing field fails. -/
def deserialize (fields : List (String × FieldValue)) : Option GMPruningModifier := do
  let init ← getNum fields "init_sparsity"
  let final ← getNum fields "final_sparsity"
  let start ← getNum fields "start_epoch"
  let stop ← getNum fields "end_epoch"
  let freq ← getNum fields "update_frequency"
  let ps ← getStrList fields "params"
  let inter ← getStr fields "inter_func"
  let interF ← parseInterFunc inter
  let mt ← getStr fields "mask_type"
  let gs ← getBool fields "global_sparsity"
  let ph ← getBool fields "phased"
  pure ⟨init, final, start, stop, freq, ps, interF, mt, gs, ph⟩

/-! ## Concrete configurations used to instantiate the general theorems -/

/-- The gradual magnitude pruning configuration of the test suite's first
`GMPruningModifier` scenario, with `start_epoch` moved to `5.0`. -/
def sampleGM : GMPruningModifier :=
  ⟨1/20, 19/20, 5, 15, 1, ["re:.*weight"], InterFunc.linear, "unstructured",
    false, false⟩

/-- The phased pruning configuration of the test suite's phased scenario. -/
def samplePhasedGM : GMPruningModifier :=
  ⟨9/10, 9/10, 10, 25, 2, ["__ALL_PRUNABLE__"], InterFunc.cubic, "unstructured",
    false, true⟩

/-- The serialization-scenario configuration of `test_gm_pruning_yaml`. -/
def sampleYamlGM : GMPruningModifier :=
  ⟨1/20, 4/5, 5, 15, 1, ["re:.*weight"], InterFunc.cubic, "filter",
    false, false⟩

/-- A loss run that raises as soon as the single pruning op's mask has been
set to full sparsity `1`, and succeeds before that. -/
def failingLossOnPruned (masks : List ℚ) (_step : ℕ) : Except String ℚ :=
  if masks = [1] then Except.error "boom" else Except.ok 0

/-! ## Helper lemmas -/

theorem zipWith_mul_zero (p mask : List ℚ) (h : ∀ v ∈ mask, v = 0)
    (hl : mask.length = p.length) :
    applyMask p mask = List.replicate p.length 0 := by
  induction p generalizing mask with
  | nil => simp [applyMask]
  | cons a p ih =>
    cases mask with
    | nil => simp at hl
    | cons b mask =>
      have hb : b = 0 := h b (by simp)
      have hrest : ∀ v ∈ mask, v = 0 := fun v hv => h v (by simp [hv])
      have hl' : mask.length = p.length := by simpa using hl
      simp [applyMask, List.replicate_succ, hb] at *
      exact ih mask hrest hl'

theorem lookup_mem_of_eq_some {α β : Type} [BEq α] {l : List (α × β)} {k : α}
    {b : β} (h : l.lookup k = some b) : ∃ a, (a, b) ∈ l := by
  induction l with
  | nil => simp [List.lookup] at h
  | cons e l ih =>
    rw [List.lookup] at h
    by_cases hk : (k == e.1) = true
    · rw [hk] at h
      simp only [cond_true, Option.some.injEq] at h
      exact ⟨e.1, by simp [← h]⟩
    · rw [Bool.eq_false_iff.2 hk] at h
      simp only [cond_false] at h
      obtain ⟨a, ha⟩ := ih h
      exact ⟨a, by simp [ha]⟩

theorem round_trip_general (m : GMPruningModifier) :
    deserialize (serialize m) = some m := by
  cases m with
  | mk i f s e u p inter mt g ph => cases inter <;> rfl

/-- Claim C7: loading a state dict whose masks are all zero re-applies the
masks immediately, forcing every parameter covered by a
`"<param_name>.sparsity_mask"` entry to exactly zero values. -/
theorem load_state_dict_zero_mask_spec (model state : List (String × List ℚ))
    (i : ℕ) (p : String × List ℚ) (mask : List ℚ)
    (hzero : ∀ e ∈ state, ∀ v ∈ e.2, v = 0)
    (hlen : ∀ q ∈ model, ∀ mk, state.lookup (q.1 ++ ".sparsity_mask") = some mk →
      mk.length = q.2.length)
    (hip : model[i]? = some p)
    (hlk : state.lookup (p.1 ++ ".sparsity_mask") = some mask) :
    (load_state_dict model state)[i]? = some (p.1, List.replicate p.2.length 0) := by
  have hmem : p ∈ model := List.getElem?_mem hip
  obtain ⟨a, hmm⟩ := lookup_mem_of_eq_some hlk
  have hz : ∀ v ∈ mask, v = 0 := fun v hv => hzero (a, mask) hmm v hv
  have hl : mask.length = p.2.length := hlen p hmem mask hlk
  rw [load_state_dict, List.getElem?_map, hip]
  simp only [Option.map_some']
  rw [hlk]
  show some (p.1, applyMask p.2 mask) = _
  rw [zipWith_mul_zero p.2 mask hz hl]

theorem load_state_dict_zero_mask_spec_witness :
    (load_state_dict [("w", [1, 2, 3])] [("w.sparsity_mask", [0, 0, 0])])[0]? =
      some ("w", List.replicate ([(1 : ℚ), 2, 3]).length 0) :=
  load_state_dict_zero_mask_spec [("w", [1, 2, 3])] [("w.sparsity_mask", [0, 0, 0])]
    0 ("w", [1, 2, 3]) [0, 0, 0]
    (by decide)
    (by
      intro q hq mk hmk
      rw [List.mem_singleton] at hq
      subst hq
      simp only [List.lookup] at hmk
      rw [show (("w" ++ ".sparsity_mask" == "w.sparsity_mask") = true) from rfl] at hmk
      simp only [cond_true, Option.some.injEq] at hmk
      rw [← hmk]
      rfl)
    (by rfl)
    (by rfl)

/-- Claim C8: deserializing a serialized modifier yields a modifier equal
field-for-field to the original; in particular the
`test_gm_pruning_yaml` configuration serializes, deserializes, and
re-serializes to identical field values. -/
theorem gm_pruning_serialization_round_trip_spec :
    (∀ m : GMPruningModifier, deserialize (serialize m) = some m) ∧
    deserialize (serialize sampleYamlGM) = some sampleYamlGM ∧
    Option.map serialize (deserialize (serialize sampleYamlGM)) =
      some (serialize sampleYamlGM) := by
  refine ⟨round_trip_general, round_trip_general sampleYamlGM, ?_⟩
  rw [round_trip_general sampleYamlGM]
  rfl

theorem update_ready_start (m : GMPruningModifier) :
    update_ready m m.start_epoch = true := by
  simp [update_ready]

theorem update_ready_end (m : GMPruningModifier) (he : 0 ≤ m.end_epoch) :
    update_ready m m.end_epoch = true := by
  simp only [update_ready, Bool.or_eq_true, Bool.and_eq_true, decide_eq_true_eq]
  exact Or.inl (Or.inr ⟨he, trivial⟩)

theorem update_ready_false_of_lt_start (m : GMPruningModifier) {epoch : ℚ}
    (hse : 0 ≤ m.end_epoch → m.start_epoch ≤ m.end_epoch)
    (hlt : epoch < m.start_epoch) : update_ready m epoch = false := by
  rw [Bool.eq_false_iff]
  simp only [ne_eq, update_ready, Bool.or_eq_true, Bool.and_eq_true, decide_eq_true_eq]
  rintro ((h | ⟨h1, h2⟩) | ⟨⟨⟨h1, h2⟩, h3⟩, h4⟩)
  · exact absurd h (ne_of_lt hlt)
  · have := hse h1
    rw [h2] at hlt
    linarith
  · linarith

theorem update_ready_false_of_gt_end (m : GMPruningModifier) {epoch : ℚ}
    (hse : m.start_epoch ≤ m.end_epoch)
    (hlt : m.end_epoch < epoch) : update_ready m epoch = false := by
  rw [Bool.eq_false_iff]
  simp only [ne_eq, update_ready, Bool.or_eq_true, Bool.and_eq_true, decide_eq_true_eq]
  rintro ((h | ⟨h1, h2⟩) | ⟨⟨⟨h1, h2⟩, h3⟩, h4⟩)
  · rw [h] at hlt; linarith
  · rw [h2] at hlt; linarith
  · linarith

theorem update_ready_periodic (m : GMPruningModifier) {epoch : ℚ}
    (hf : -1 < m.update_frequency) (hs : m.start_epoch < epoch)
    (he : epoch < m.end_epoch)
    (hk : ∃ k : ℕ, epoch = m.start_epoch + (k : ℚ) * m.update_frequency) :
    update_ready m epoch = true := by
  obtain ⟨k, hk⟩ := hk
  have hk1 : 1 ≤ (k : ℚ) := by
    rcases Nat.eq_zero_or_pos k with h0 | h0
    · subst h0; simp at hk; linarith
    · exact_mod_cast h0
  have hfpos : 0 < m.update_frequency := by
    by_contra hneg
    push_neg at hneg
    have : (k : ℚ) * m.update_frequency ≤ 1 * m.update_frequency :=
      mul_le_mul_of_nonpos_right hk1 hneg
    nlinarith
  simp only [update_ready, Bool.or_eq_true, Bool.and_eq_true, decide_eq_true_eq]
  refine Or.inr ⟨⟨⟨hf, hs⟩, he⟩, ?_⟩
  rw [isPeriodicBoundary, if_neg (ne_of_gt hfpos)]
  have hq : (epoch - m.start_epoch) / m.update_frequency = ((k : ℤ) : ℚ) := by
    rw [hk]
    field_simp
  rw [hq]
  simp [Rat.den_intCast, Rat.num_intCast]

theorem foldl_scheduled_update_none (m : GMPruningModifier) (epochs : List ℚ)
    (hse : 0 ≤ m.end_epoch → m.start_epoch ≤ m.end_epoch)
    (hbefore : ∀ x ∈ epochs, x < m.start_epoch) :
    epochs.foldl (scheduled_update m) none = none := by
  induction epochs with
  | nil => rfl
  | cons x xs ih =>
    have hx : update_ready m x = false :=
      update_ready_false_of_lt_start m hse (hbefore x (by simp))
    rw [List.foldl_cons, scheduled_update, hx]
    simp only [Bool.false_eq_true, if_false]
    exact ih (fun y hy => hbefore y (by simp [hy]))

/-- Claim C1: `update_ready` is true at `start_epoch`, at `end_epoch` when
`end_epoch ≥ 0`, and at each epoch an integer multiple of
`update_frequency` past `start_epoch` strictly inside the schedule; it is
false before `start_epoch` and false again once the modifier is past
`end_epoch` (Completed). -/
theorem update_ready_boundary_spec (m : GMPruningModifier) (e1 e2 e3 : ℚ)
    (k : ℕ) (hse : 0 ≤ m.end_epoch → m.start_epoch ≤ m.end_epoch) :
    update_ready m m.start_epoch = true ∧
    (0 ≤ m.end_epoch → update_ready m m.end_epoch = true) ∧
    (e1 < m.start_epoch → update_ready m e1 = false) ∧
    (-1 < m.update_frequency → m.start_epoch < e2 → e2 < m.end_epoch →
      e2 = m.start_epoch + (k : ℚ) * m.update_frequency →
      update_ready m e2 = true) ∧
    (0 ≤ m.end_epoch → m.end_epoch < e3 → update_ready m e3 = false) :=
  ⟨update_ready_start m, update_ready_end m,
   fun h => update_ready_false_of_lt_start m hse h,
   fun hf hs he hk => update_ready_periodic m hf hs he ⟨k, hk⟩,
   fun he hlt => update_ready_false_of_gt_end m (hse he) hlt⟩

theorem update_ready_boundary_spec_witness :
    update_ready sampleGM sampleGM.start_epoch = true ∧
    (0 ≤ sampleGM.end_epoch → update_ready sampleGM sampleGM.end_epoch = true) ∧
    ((3 : ℚ) < sampleGM.start_epoch → update_ready sampleGM 3 = false) ∧
    (-1 < sampleGM.update_frequency → sampleGM.start_epoch < 7 →
      (7 : ℚ) < sampleGM.end_epoch →
      (7 : ℚ) = sampleGM.start_epoch + ((2 : ℕ) : ℚ) * sampleGM.update_frequency →
      update_ready sampleGM 7 = true) ∧
    (0 ≤ sampleGM.end_epoch → sampleGM.end_epoch < 20 →
      update_ready sampleGM 20 = false) :=
  update_ready_boundary_spec sampleGM 3 7 20 2 (by norm_num [sampleGM])

theorem cube_le_cube {a b : ℚ} (h : a ≤ b) : a ^ 3 ≤ b ^ 3 := by
  nlinarith [sq_nonneg (a + b), sq_nonneg (a - b), sq_nonneg a, sq_nonneg b]

theorem interpolate_mono (f : InterFunc) {i fi p1 p2 : ℚ} (hif : i ≤ fi)
    (hp : p1 ≤ p2) : interpolate f p1 i fi ≤ interpolate f p2 i fi := by
  cases f with
  | linear =>
    simp only [interpolate]
    have := mul_le_mul_of_nonneg_right hp (sub_nonneg.2 hif)
    linarith
  | cubic =>
    simp only [interpolate]
    have h3 : (1 - p2) ^ 3 ≤ (1 - p1) ^ 3 := cube_le_cube (by linarith)
    have := mul_le_mul_of_nonneg_left
      (by linarith : (1 : ℚ) - (1 - p1) ^ 3 ≤ 1 - (1 - p2) ^ 3) (sub_nonneg.2 hif)
    linarith
  | inv_cubic =>
    simp only [interpolate]
    have h3 : p1 ^ 3 ≤ p2 ^ 3 := cube_le_cube hp
    have := mul_le_mul_of_nonneg_left h3 (sub_nonneg.2 hif)
    linarith

theorem schedProgress_mono (m : GMPruningModifier) {e1 e2 : ℚ}
    (hse : m.start_epoch < m.end_epoch) (h : e1 ≤ e2) :
    schedProgress m e1 ≤ schedProgress m e2 := by
  have hpos : (0 : ℚ) < m.end_epoch - m.start_epoch := by linarith
  have hdiv : (e1 - m.start_epoch) / (m.end_epoch - m.start_epoch) ≤
      (e2 - m.start_epoch) / (m.end_epoch - m.start_epoch) := by
    gcongr
  exact max_le_max le_rfl (min_le_min le_rfl hdiv)

theorem interpolate_zero (f : InterFunc) (i fi : ℚ) : interpolate f 0 i fi = i := by
  cases f <;> simp [interpolate]

theorem interpolate_one (f : InterFunc) (i fi : ℚ) : interpolate f 1 i fi = fi := by
  cases f <;> simp [interpolate]

theorem sparsityAt_eq_interpolate (m : GMPruningModifier) (epoch : ℚ)
    (hse : m.start_epoch < m.end_epoch) :
    sparsityAt m epoch =
      interpolate m.inter_func (schedProgress m epoch) m.init_sparsity
        m.final_sparsity := by
  rw [sparsityAt]
  by_cases h1 : epoch = m.start_epoch
  · rw [if_pos h1]
    have : schedProgress m epoch = 0 := by
      rw [schedProgress, h1]
      simp
    rw [this, interpolate_zero]
  · rw [if_neg h1]
    by_cases h2 : epoch = m.end_epoch
    · rw [if_pos h2]
      have : schedProgress m epoch = 1 := by
        rw [schedProgress, h2,
          div_self (by linarith : m.end_epoch - m.start_epoch ≠ 0)]
        simp
      rw [this, interpolate_one]
    · rw [if_neg h2]

theorem sparsityAt_mono (m : GMPruningModifier) {e1 e2 : ℚ}
    (hse : m.start_epoch < m.end_epoch) (hif : m.init_sparsity ≤ m.final_sparsity)
    (h : e1 ≤ e2) : sparsityAt m e1 ≤ sparsityAt m e2 := by
  rw [sparsityAt_eq_interpolate m e1 hse, sparsityAt_eq_interpolate m e2 hse]
  exact interpolate_mono m.inter_func hif (schedProgress_mono m hse h)

/-- Claim C2: for a non-phased gradual pruning modifier, `applied_sparsity`
is `None` before the first `scheduled_update`, equals `init_sparsity`
exactly after the update at `start_epoch`, equals `final_sparsity` exactly
after the update at `end_epoch`, and the applied sparsity is non-decreasing
over successive ready epochs in between. -/
theorem gradual_applied_sparsity_spec (m : GMPruningModifier) (epochs : List ℚ)
    (st : Option ℚ) (e e1 e2 : ℚ)
    (hph : m.phased = false) (hs0 : 0 ≤ m.start_epoch)
    (hse : m.start_epoch < m.end_epoch)
    (hif : m.init_sparsity ≤ m.final_sparsity)
    (hbefore : ∀ x ∈ epochs, x < m.start_epoch) :
    epochs.foldl (scheduled_update m) none = none ∧
    scheduled_update m st m.start_epoch = some m.init_sparsity ∧
    scheduled_update m st m.end_epoch = some m.final_sparsity ∧
    (update_ready m e = true → scheduled_update m st e = some (sparsityAt m e)) ∧
    (e1 ≤ e2 → sparsityAt m e1 ≤ sparsityAt m e2) := by
  have hend0 : 0 ≤ m.end_epoch := by linarith
  refine ⟨foldl_scheduled_update_none m epochs (fun _ => le_of_lt hse) hbefore,
    ?_, ?_, ?_, ?_⟩
  · rw [scheduled_update, update_ready_start m]
    simp only [if_true]
    rw [appliedSparsityAt, hph]
    simp only [Bool.false_eq_true, if_false]
    rw [sparsityAt, if_pos rfl]
  · rw [scheduled_update, update_ready_end m hend0]
    simp only [if_true]
    rw [appliedSparsityAt, hph]
    simp only [Bool.false_eq_true, if_false]
    rw [sparsityAt, if_neg (by intro h; rw [h] at hse; exact lt_irrefl _ hse),
      if_pos rfl]
  · intro hready
    rw [scheduled_update, hready]
    simp only [if_true]
    rw [appliedSparsityAt, hph]
    simp only [Bool.false_eq_true, if_false]
  · intro h12
    exact sparsityAt_mono m hse hif h12

theorem gradual_applied_sparsity_spec_witness :
    ([2, 3] : List ℚ).foldl (scheduled_update sampleGM) none = none ∧
    scheduled_update sampleGM none sampleGM.start_epoch =
      some sampleGM.init_sparsity ∧
    scheduled_update sampleGM none sampleGM.end_epoch =
      some sampleGM.final_sparsity ∧
    (update_ready sampleGM 7 = true →
      scheduled_update sampleGM none 7 = some (sparsityAt sampleGM 7)) ∧
    ((6 : ℚ) ≤ 7 → sparsityAt sampleGM 6 ≤ sparsityAt sampleGM 7) :=
  gradual_applied_sparsity_spec sampleGM [2, 3] none 7 6 7
    (by rfl) (by norm_num [sampleGM]) (by norm_num [sampleGM])
    (by norm_num [sampleGM]) (by intro x hx; fin_cases hx <;> norm_num [sampleGM])

/-- Claim C6: for a phased pruning modifier the applied sparsity alternates
every `update_frequency` interval: epochs whose interval index counted from
`start_epoch` is even (the first, third, ... intervals) apply the computed
gradual sparsity, the other intervals force sparsity back to exactly `0`,
and the applied value is non-decreasing across the pruning-on intervals. -/
theorem phased_alternation_spec (m : GMPruningModifier) (e e1 e2 : ℚ) (k : ℤ)
    (st : Option ℚ) (hph : m.phased = true)
    (hse : m.start_epoch < m.end_epoch)
    (hif : m.init_sparsity ≤ m.final_sparsity)
    (hfpos : 0 < m.update_frequency) :
    phaseIndex m (m.start_epoch + (k : ℚ) * m.update_frequency) = k ∧
    (e ≠ m.end_epoch → phaseIndex m e % 2 = 0 →
      phasedSparsityAt m e = sparsityAt m e) ∧
    (e ≠ m.end_epoch → phaseIndex m e % 2 ≠ 0 → phasedSparsityAt m e = 0) ∧
    (e1 ≤ e2 → e1 ≠ m.end_epoch → e2 ≠ m.end_epoch → phaseIndex m e1 % 2 = 0 →
      phaseIndex m e2 % 2 = 0 → phasedSparsityAt m e1 ≤ phasedSparsityAt m e2) ∧
    (update_ready m e = true →
      scheduled_update m st e = some (phasedSparsityAt m e)) := by
  refine ⟨?_, ?_, ?_, ?_, ?_⟩
  · rw [phaseIndex]
    have : m.start_epoch + (k : ℚ) * m.update_frequency - m.start_epoch =
        (k : ℚ) * m.update_frequency := by ring
    rw [this, mul_div_assoc, div_self (ne_of_gt hfpos), mul_one, Int.floor_intCast]
  · intro hne hev
    rw [phasedSparsityAt, if_neg hne, if_pos hev]
  · intro hne hodd
    rw [phasedSparsityAt, if_neg hne, if_neg hodd]
  · intro h12 hne1 hne2 hev1 hev2
    rw [phasedSparsityAt, if_neg hne1, if_pos hev1, phasedSparsityAt,
      if_neg hne2, if_pos hev2]
    exact sparsityAt_mono m hse hif h12
  · intro hready
    rw [scheduled_update, hready]
    simp only [if_true]
    rw [appliedSparsityAt, hph]
    simp only [if_true]

theorem phased_alternation_spec_witness :
    phaseIndex samplePhasedGM
      (samplePhasedGM.start_epoch + ((3 : ℤ) : ℚ) * samplePhasedGM.update_frequency) =
      3 ∧
    ((12 : ℚ) ≠ samplePhasedGM.end_epoch → phaseIndex samplePhasedGM 12 % 2 = 0 →
      phasedSparsityAt samplePhasedGM 12 = sparsityAt samplePhasedGM 12) ∧
    ((12 : ℚ) ≠ samplePhasedGM.end_epoch → phaseIndex samplePhasedGM 12 % 2 ≠ 0 →
      phasedSparsityAt samplePhasedGM 12 = 0) ∧
    ((14 : ℚ) ≤ 18 → (14 : ℚ) ≠ samplePhasedGM.end_epoch →
      (18 : ℚ) ≠ samplePhasedGM.end_epoch → phaseIndex samplePhasedGM 14 % 2 = 0 →
      phaseIndex samplePhasedGM 18 % 2 = 0 →
      phasedSparsityAt samplePhasedGM 14 ≤ phasedSparsityAt samplePhasedGM 18) ∧
    (update_ready samplePhasedGM 12 = true →
      scheduled_update samplePhasedGM none 12 =
        some (phasedSparsityAt samplePhasedGM 12)) :=
  phased_alternation_spec samplePhasedGM 12 14 18 3 none
    (by rfl) (by norm_num [samplePhasedGM]) (by norm_num [samplePhasedGM])
    (by norm_num [samplePhasedGM])

theorem pyRound_nonneg {q : ℚ} (h : 0 ≤ q) : 0 ≤ pyRound q := by
  have hf : 0 ≤ ⌊q⌋ := Int.floor_nonneg.2 h
  rw [pyRound]
  split
  · exact hf
  · split
    · omega
    · split
      · exact hf
      · omega

theorem cutIndex_bounds {n : ℕ} (hn : 0 < n) {s : ℚ} (hs : 0 ≤ s) :
    0 ≤ cutIndex n s ∧ cutIndex n s ≤ (n : ℤ) - 1 := by
  have hv : 0 ≤ pyRound (s * (n : ℚ)) :=
    pyRound_nonneg (mul_nonneg hs (by positivity))
  rw [cutIndex]
  split
  · omega
  · next h => omega

theorem take_drop_sublist_dropLast (l : List ℚ) (m k : ℕ)
    (h : k = 0 ∨ m + k ≤ l.length - 1) :
    ((l.drop m).take k).Sublist l.dropLast := by
  rcases h with h | h
  · subst h
    simp
  have h1 : k ≤ l.length - 1 - m := by omega
  have e1 : (l.drop m).take k = ((l.drop m).take (l.length - 1 - m)).take k := by
    rw [List.take_take, min_eq_left h1]
  have e2 : (l.drop m).take (l.length - 1 - m) = (l.take (l.length - 1)).drop m := by
    rw [List.drop_take]
  rw [e1, e2, List.dropLast_eq_take]
  exact ((List.take_sublist _ _).trans (List.drop_sublist _ _))

theorem pySlice_sublist_dropLast (l : List ℚ) (a b : ℤ)
    (hb : b ≤ (l.length : ℤ) - 1) : (pySlice l a b).Sublist l.dropLast := by
  rw [pySlice]
  apply take_drop_sublist_dropLast
  split_ifs <;> omega

theorem pyGet_isSome_of_bounds (l : List ℚ) (i : ℤ) (h0 : 0 ≤ i)
    (hn : i < (l.length : ℤ)) : (pyGet l i).isSome = true := by
  rw [pyGet]
  simp only [not_lt.2 h0, if_neg, reduceIte]
  rw [if_pos ⟨h0, hn⟩]
  have : i.toNat < l.length := by omega
  rw [List.getElem?_eq_getElem this]
  rfl

theorem approxStep_not_indexError (values : List ℚ) (name : String) (idx : ℕ)
    (st : Option ℤ × List KSResult) {s : ℚ} (hval : values ≠ []) (hs : 0 ≤ s) :
    approxStep values name idx st s ≠ Except.error PyError.indexError := by
  have hn : 0 < values.length := List.length_pos.2 hval
  obtain ⟨hc0, hc1⟩ := cutIndex_bounds hn hs
  rw [approxStep]
  split
  · intro h
    exact Except.noConfusion h
  · cases hst : st.1 with
    | none =>
      intro h
      exact PyError.noConfusion (Except.error.inj h)
    | some p =>
      simp only [hst]
      split
      · intro h
        exact Except.noConfusion h
      · have hsome : (pyGet values (cutIndex values.length s)).isSome = true :=
          pyGet_isSome_of_bounds values _ hc0 (by omega)
        obtain ⟨v, hv⟩ := Option.isSome_iff_exists.1 hsome
        rw [hv]
        intro h
        exact Except.noConfusion h

theorem approxStep_isOk (values : List ℚ) (name : String) (idx : ℕ)
    (acc : List KSResult) (p : ℤ) {s : ℚ} (hval : values ≠ []) (hs : 0 ≤ s) :
    (approxStep values name idx (some p, acc) s).isOk = true := by
  have hn : 0 < values.length := List.length_pos.2 hval
  obtain ⟨hc0, hc1⟩ := cutIndex_bounds hn hs
  rw [approxStep]
  split
  · rfl
  · show (match (some p : Option ℤ) with
      | none => Except.error PyError.typeError
      | some prev => _).isOk = true
    simp only []
    split
    · rfl
    · have hsome : (pyGet values (cutIndex values.length s)).isSome = true :=
        pyGet_isSome_of_bounds values _ hc0 (by omega)
      obtain ⟨v, hv⟩ := Option.isSome_iff_exists.1 hsome
      rw [hv]
      rfl

theorem foldlM_approxStep_not_indexError (values : List ℚ) (name : String)
    (idx : ℕ) (levels : List ℚ) (hval : values ≠ []) :
    ∀ st, (∀ l ∈ levels, 0 ≤ l) →
      levels.foldlM (approxStep values name idx) st ≠
        Except.error PyError.indexError := by
  induction levels with
  | nil =>
    intro st _ h
    exact Except.noConfusion h
  | cons l ls ih =>
    intro st hlev
    rw [List.foldlM_cons]
    cases hstep : approxStep values name idx st l with
    | error e =>
      have hne : e ≠ PyError.indexError := by
        intro he
        exact approxStep_not_indexError values name idx st hval
          (hlev l (by simp)) (he ▸ hstep)
      show Except.error e ≠ Except.error PyError.indexError
      intro h
      exact hne (Except.error.inj h)
    | ok st' =>
      show ls.foldlM (approxStep values name idx) st' ≠
        Except.error PyError.indexError
      exact ih st' (fun x hx => hlev x (by simp [hx]))

theorem approxParam_not_indexError (name : String) (idx : ℕ)
    (weights levels : List ℚ) (hw : weights ≠ [])
    (hlev : ∀ l ∈ levels, 0 ≤ l) :
    approxParam name idx weights levels ≠ Except.error PyError.indexError := by
  have hval : sortedAbs weights ≠ [] := by
    have hlen : (sortedAbs weights).length = weights.length := by
      rw [sortedAbs, (List.perm_insertionSort _ _).length_eq, List.length_map]
    intro h
    rw [h] at hlen
    exact hw (List.length_eq_zero.1 hlen.symm)
  rw [approxParam]
  cases hfold : (levels.foldlM (approxStep (sortedAbs weights) name idx)
      ((none : Option ℤ), ([] : List KSResult))) with
  | error e =>
    have := foldlM_approxStep_not_indexError (sortedAbs weights) name idx levels
      hval ((none : Option ℤ), ([] : List KSResult)) hlev
    rw [hfold] at this
    have hne : e ≠ PyError.indexError := fun he => this (by rw [he])
    simp only [hfold, Except.map]
    intro h
    exact hne (Except.error.inj h)
  | ok st' =>
    simp only [hfold, Except.map]
    intro h
    exact Except.noConfusion h

/-- Claim C4: in the approximate analysis the absolute weight values are
sorted ascending, and a level with a non-empty marginal slice records the
mean magnitude of `values[prev_index:val_index]`, the slice of sorted
values newly pruned between the previous level's cut index and the current
clamped cut index; a level of approximately `0` (`sparsity <= 1e-9`) is
instead recorded as a baseline entry with sparsity `0.0` and value `0.0`. -/
theorem approx_marginal_slice_mean_spec (weights values : List ℚ)
    (name : String) (idx : ℕ) (acc : List KSResult) (st : Option ℤ) (p : ℤ)
    (s t : ℚ) (hvals : values = sortedAbs weights)
    (hs : baselineEps < s) (_hp : 0 ≤ p)
    (hlt : p < cutIndex values.length s) (ht : t ≤ baselineEps) :
    List.Sorted (· ≤ ·) values ∧
    values.Perm (weights.map (fun w => |w|)) ∧
    approxStep values name idx (some p, acc) s =
      Except.ok (some (cutIndex values.length s + 1),
        acc ++ [⟨name, idx, s,
          listMean (pySlice values p (cutIndex values.length s)), false⟩]) ∧
    approxStep values name idx (st, acc) t =
      Except.ok (some (cutIndex values.length t + 1),
        acc ++ [⟨name, idx, 0, 0, true⟩]) := by
  subst hvals
  refine ⟨List.sorted_insertionSort _ _, List.perm_insertionSort _ _, ?_, ?_⟩
  · rw [approxStep]
    rw [if_neg (not_le.2 hs)]
    show (match (some p : Option ℤ) with
      | none => Except.error PyError.typeError
      | some prev => _) = _
    simp only []
    rw [if_pos hlt]
  · rw [approxStep, if_pos ht]

theorem approx_marginal_slice_mean_spec_witness :
    List.Sorted (· ≤ ·) ([1, 2, 3, 4] : List ℚ) ∧
    ([1, 2, 3, 4] : List ℚ).Perm (([3, -1, 2, -4] : List ℚ).map (fun w => |w|)) ∧
    approxStep [1, 2, 3, 4] "w" 0 (some 1, []) 1 =
      Except.ok (some (cutIndex ([(1 : ℚ), 2, 3, 4]).length 1 + 1),
        [] ++ [⟨"w", 0, 1,
          listMean (pySlice [1, 2, 3, 4] 1 (cutIndex ([(1 : ℚ), 2, 3, 4]).length 1)),
          false⟩]) ∧
    approxStep [1, 2, 3, 4] "w" 0 (none, []) 0 =
      Except.ok (some (cutIndex ([(1 : ℚ), 2, 3, 4]).length 0 + 1),
        [] ++ [⟨"w", 0, 0, 0, true⟩]) :=
  approx_marginal_slice_mean_spec [3, -1, 2, -4] [1, 2, 3, 4] "w" 0 [] none 1 1 0
    (by decide) (by norm_num [baselineEps]) (by norm_num)
    (by norm_num [cutIndex, pyRound]) (by norm_num [baselineEps])

/-- Claim C10: for a non-empty weight tensor and non-negative sparsity
levels the cut index is clamped into `[0, N-1]`, every access into the
sorted magnitudes is in bounds so the per-parameter analysis never fails
with an `IndexError`, and the largest-magnitude (last sorted) element never
belongs to a level's marginal slice. -/
theorem approx_cut_index_clamped_spec (weights levels : List ℚ)
    (name : String) (idx : ℕ) (p : ℤ) (acc : List KSResult) (s : ℚ)
    (hw : weights ≠ []) (hlev : ∀ l ∈ levels, 0 ≤ l) (hs : 0 ≤ s) :
    (0 ≤ cutIndex (sortedAbs weights).length s ∧
      cutIndex (sortedAbs weights).length s ≤ ((sortedAbs weights).length : ℤ) - 1) ∧
    (approxStep (sortedAbs weights) name idx (some p, acc) s).isOk = true ∧
    (pySlice (sortedAbs weights) p (cutIndex (sortedAbs weights).length s)).Sublist
      (sortedAbs weights).dropLast ∧
    approxParam name idx weights levels ≠ Except.error PyError.indexError := by
  have hval : sortedAbs weights ≠ [] := by
    have hlen : (sortedAbs weights).length = weights.length := by
      rw [sortedAbs, (List.perm_insertionSort _ _).length_eq, List.length_map]
    intro h
    rw [h] at hlen
    exact hw (List.length_eq_zero.1 hlen.symm)
  have hn : 0 < (sortedAbs weights).length := List.length_pos.2 hval
  obtain ⟨hc0, hc1⟩ := cutIndex_bounds hn hs
  exact ⟨⟨hc0, hc1⟩, approxStep_isOk (sortedAbs weights) name idx acc p hval hs,
    pySlice_sublist_dropLast (sortedAbs weights) p _ hc1,
    approxParam_not_indexError name idx weights levels hw hlev⟩

theorem approx_cut_index_clamped_spec_witness :
    (0 ≤ cutIndex (sortedAbs [2, -3]).length (3/2) ∧
      cutIndex (sortedAbs [2, -3]).length (3/2) ≤
        ((sortedAbs [2, -3]).length : ℤ) - 1) ∧
    (approxStep (sortedAbs [2, -3]) "w" 0 (some 1, []) (3/2)).isOk = true ∧
    (pySlice (sortedAbs [2, -3]) 1
      (cutIndex (sortedAbs [2, -3]).length (3/2))).Sublist
      (sortedAbs [2, -3]).dropLast ∧
    approxParam "w" 0 [2, -3] [0, 3/2] ≠ Except.error PyError.indexError :=
  approx_cut_index_clamped_spec [2, -3] [0, 3/2] "w" 0 1 [] (3/2)
    (by decide) (by intro l hl; fin_cases hl <;> norm_num) (by norm_num)

theorem oneShotSteps_ok (g : List ℚ → ℕ → ℚ) (masks : List ℚ) (name : String)
    (opIndex : ℕ) (level : ℚ) :
    ∀ (n start : ℕ),
      oneShotSteps (fun m s => Except.ok (g m s)) masks name opIndex level start n =
      ((List.range' start n).map (fun s => SessEvent.measure opIndex s masks),
       Except.ok ((List.range' start n).map
         (fun s => ⟨name, opIndex, level, g masks s, decide (level < baselineEps)⟩))) := by
  intro n
  induction n with
  | zero =>
    intro start
    simp [oneShotSteps]
  | succ n ih =>
    intro start
    rw [oneShotSteps]
    show (SessEvent.measure opIndex start masks ::
        (oneShotSteps _ masks name opIndex level (start + 1) n).1, _) = _
    rw [ih (start + 1)]
    simp [List.range'_succ, Except.map]

theorem oneShotLevels_ok (g : List ℚ → ℕ → ℚ) (name : String) (opIndex steps : ℕ) :
    ∀ (levels masks : List ℚ),
      oneShotLevels (fun m s => Except.ok (g m s)) name opIndex steps masks levels =
      (levels.foldl (fun mm l => mm.set opIndex l) masks,
       levels.flatMap (fun l => SessEvent.update opIndex l (masks.set opIndex l) ::
         (List.range' 0 steps).map
           (fun s => SessEvent.measure opIndex s (masks.set opIndex l))),
       Except.ok (levels.flatMap (fun l => (List.range' 0 steps).map
         (fun s => ⟨name, opIndex, l, g (masks.set opIndex l) s,
           decide (l < baselineEps)⟩)))) := by
  intro levels
  induction levels with
  | nil =>
    intro masks
    simp [oneShotLevels]
  | cons l rest ih =>
    intro masks
    rw [oneShotLevels]
    rw [oneShotSteps_ok]
    show (_, SessEvent.update opIndex l (masks.set opIndex l) :: _ ++
        (oneShotLevels _ name opIndex steps (masks.set opIndex l) rest).2.1, _) = _
    rw [ih (masks.set opIndex l)]
    simp only [List.flatMap_cons, List.foldl_cons, List.set_set, Except.map]

theorem set_replicate_self (n i : ℕ) :
    (List.replicate n (0 : ℚ)).set i 0 = List.replicate n 0 := by
  induction n generalizing i with
  | zero => rfl
  | succ n ih =>
    cases i with
    | zero => simp [List.replicate_succ, List.set]
    | succ i => simp [List.replicate_succ, List.set, ih]

theorem foldl_set_then_set (opIndex : ℕ) :
    ∀ (levels : List ℚ) (masks : List ℚ),
      (levels.foldl (fun mm l => mm.set opIndex l) masks).set opIndex 0 =
        masks.set opIndex 0 := by
  intro levels
  induction levels with
  | nil => intro masks; rfl
  | cons l rest ih =>
    intro masks
    rw [List.foldl_cons, ih (masks.set opIndex l), List.set_set]

theorem oneShotOps_ok (g : List ℚ → ℕ → ℚ) (steps : ℕ) (levels : List ℚ)
    (numOps : ℕ) :
    ∀ (ops : List String) (opIndex : ℕ),
      oneShotOps (fun m s => Except.ok (g m s)) steps levels
          (List.replicate numOps 0) opIndex ops =
      (List.replicate numOps 0,
       (List.enumFrom opIndex ops).flatMap (fun q =>
         (levels.flatMap (fun l =>
           SessEvent.update q.1 l ((List.replicate numOps 0).set q.1 l) ::
           (List.range' 0 steps).map (fun s =>
             SessEvent.measure q.1 s ((List.replicate numOps 0).set q.1 l)))) ++
         [SessEvent.update q.1 0 (List.replicate numOps 0)]),
       Except.ok ((List.enumFrom opIndex ops).flatMap (fun q =>
         levels.flatMap (fun l => (List.range' 0 steps).map (fun s =>
           ⟨q.2, q.1, l, g ((List.replicate numOps 0).set q.1 l) s,
             decide (l < baselineEps)⟩))))) := by
  intro ops
  induction ops with
  | nil =>
    intro opIndex
    simp [oneShotOps]
  | cons name rest ih =>
    intro opIndex
    rw [oneShotOps]
    rw [oneShotLevels_ok]
    have hm2 : (List.foldl (fun mm l => mm.set opIndex l) (List.replicate numOps (0 : ℚ))
        levels).set opIndex 0 = List.replicate numOps 0 := by
      rw [foldl_set_then_set, set_replicate_self]
    simp only [hm2]
    rw [ih (opIndex + 1)]
    simp [List.enumFrom, List.flatMap_cons, Except.map]

theorem one_shot_ok_char (ops : List String) (levels : List ℚ) (steps : ℕ)
    (g : List ℚ → ℕ → ℚ) :
    one_shot_ks_loss_sensitivity ops levels steps (fun m s => Except.ok (g m s)) =
    ⟨List.replicate ops.length 0,
     SessEvent.initVars (List.replicate ops.length 0) ::
       ops.enum.flatMap (fun q =>
         (levels.flatMap (fun l =>
           SessEvent.update q.1 l ((List.replicate ops.length 0).set q.1 l) ::
           (List.range' 0 steps).map (fun s =>
             SessEvent.measure q.1 s ((List.replicate ops.length 0).set q.1 l)))) ++
         [SessEvent.update q.1 0 (List.replicate ops.length 0)]),
     Except.ok (ops.enum.flatMap (fun q =>
       levels.flatMap (fun l => (List.range' 0 steps).map (fun s =>
         ⟨q.2, q.1, l, g ((List.replicate ops.length 0).set q.1 l) s,
           decide (l < baselineEps)⟩))))⟩ := by
  rw [one_shot_ks_loss_sensitivity]
  show (match oneShotOps (fun m s => Except.ok (g m s)) steps levels
      (List.replicate ops.length 0) 0 ops with
    | (a, b, c) => OneShotOutcome.mk a
        (SessEvent.initVars (List.replicate ops.length 0) :: b) c) = _
  rw [oneShotOps_ok g steps levels ops.length ops 0]
  rfl

/-- Claim C3: when every measurement succeeds, the one-shot analysis holds
exactly `len(op_vars) * len(sparsity_levels) * steps_per_measurement`
records — one per session measurement step — ordered by op index then by
the given level order, and a record is flagged baseline exactly when its
sparsity level is below `1e-9`. -/
theorem one_shot_analysis_entries_spec (ops : List String) (levels : List ℚ)
    (steps : ℕ) (g : List ℚ → ℕ → ℚ) :
    ∃ rs, (one_shot_ks_loss_sensitivity ops levels steps
        (fun m s => Except.ok (g m s))).result = Except.ok rs ∧
      rs.length = oneShotProgressTotal ops levels steps ∧
      rs.map (fun r => (r.index, r.sparsity, r.baseline)) =
        (List.range ops.length).flatMap (fun i => levels.flatMap (fun l =>
          (List.range steps).map (fun _ => (i, l, decide (l < baselineEps))))) := by
  refine ⟨_, by rw [one_shot_ok_char], ?_, ?_⟩
  · rw [oneShotProgressTotal]
    simp [List.length_flatMap, Function.comp_def, List.map_const, List.sum_replicate,
      smul_eq_mul, List.enum_length, mul_assoc]
  · rw [← List.enum_map_fst ops, List.flatMap_map, List.map_flatMap]
    apply List.flatMap_congr
    intro x hx
    rw [List.map_flatMap]
    apply List.flatMap_congr
    intro l hl
    simp [List.map_map, Function.comp_def, List.range_eq_range']

/-- Claim C5: the session trace of a successful one-shot analysis is, per
op, the update installing each level's mask followed by that level's
measurements, and — after all levels of the op and before the next op's
measurements — one more run of the op's mask-update op with sparsity `0.0`
restoring the all-unpruned mask state; every measurement for an op runs
with only that op's mask set, so layers are evaluated independently. -/
theorem one_shot_mask_reset_spec (ops : List String) (levels : List ℚ)
    (steps : ℕ) (g : List ℚ → ℕ → ℚ) :
    (one_shot_ks_loss_sensitivity ops levels steps
        (fun m s => Except.ok (g m s))).trace =
      SessEvent.initVars (List.replicate ops.length 0) ::
      ops.enum.flatMap (fun q =>
        (levels.flatMap (fun l =>
          SessEvent.update q.1 l ((List.replicate ops.length 0).set q.1 l) ::
          (List.range' 0 steps).map (fun s =>
            SessEvent.measure q.1 s ((List.replicate ops.length 0).set q.1 l)))) ++
        [SessEvent.update q.1 0 (List.replicate ops.length 0)]) := by
  rw [one_shot_ok_char]

theorem getLast?_cons_of_some {x : SessEvent} {l : List SessEvent}
    (a : SessEvent) (h : l.getLast? = some x) : (a :: l).getLast? = some x := by
  rw [show a :: l = [a] ++ l from rfl, List.getLast?_append, h]
  rfl

theorem getLast?_append_of_some {x : SessEvent} {l2 : List SessEvent}
    (l1 : List SessEvent) (h : l2.getLast? = some x) :
    (l1 ++ l2).getLast? = some x := by
  rw [List.getLast?_append, h]
  rfl

theorem oneShotSteps_error (lossFn : List ℚ → ℕ → Except String ℚ)
    (masks : List ℚ) (name : String) (opIndex : ℕ) (level : ℚ) :
    ∀ (n start : ℕ) (tr : List SessEvent) (e : String),
      oneShotSteps lossFn masks name opIndex level start n = (tr, Except.error e) →
      ∃ s, tr.getLast? = some (SessEvent.measure opIndex s masks) ∧
        lossFn masks s = Except.error e := by
  intro n
  induction n with
  | zero =>
    intro start tr e h
    rw [oneShotSteps] at h
    injection h with h1 h2
    exact Except.noConfusion h2
  | succ n ih =>
    intro start tr e h
    rw [oneShotSteps] at h
    cases hl : lossFn masks start with
    | error e1 =>
      rw [hl] at h
      injection h with h1 h2
      refine ⟨start, ?_, ?_⟩
      · rw [← h1]
        rfl
      · rw [hl, Except.error.inj h2]
    | ok loss =>
      rw [hl] at h
      cases hrec : oneShotSteps lossFn masks name opIndex level (start + 1) n with
      | mk tr1 res1 =>
        rw [hrec] at h
        cases res1 with
        | ok rs =>
          injection h with h1 h2
          exact Except.noConfusion h2
        | error e1 =>
          injection h with h1 h2
          have he : e1 = e := Except.error.inj h2
          obtain ⟨s, hs1, hs2⟩ := ih (start + 1) tr1 e1 hrec
          refine ⟨s, ?_, ?_⟩
          · rw [← h1]
            exact getLast?_cons_of_some _ hs1
          · rw [hs2, he]

theorem oneShotLevels_error (lossFn : List ℚ → ℕ → Except String ℚ)
    (name : String) (opIndex steps : ℕ) :
    ∀ (levels masks m' : List ℚ) (tr : List SessEvent) (e : String),
      oneShotLevels lossFn name opIndex steps masks levels = (m', tr, Except.error e) →
      ∃ s mm, tr.getLast? = some (SessEvent.measure opIndex s mm) ∧
        lossFn mm s = Except.error e ∧ m' = mm := by
  intro levels
  induction levels with
  | nil =>
    intro masks m' tr e h
    rw [oneShotLevels] at h
    injection h with h1 h2
    injection h2 with h2 h3
    exact Except.noConfusion h3
  | cons level rest ih =>
    intro masks m' tr e h
    rw [oneShotLevels] at h
    cases hstep : oneShotSteps lossFn (masks.set opIndex level) name opIndex level 0 steps with
    | mk tr1 res1 =>
      rw [hstep] at h
      cases res1 with
      | error e1 =>
        injection h with h1 h2
        injection h2 with h2 h3
        have he : e1 = e := Except.error.inj h3
        obtain ⟨s, hs1, hs2⟩ :=
          oneShotSteps_error lossFn _ name opIndex level steps 0 tr1 e1 hstep
        refine ⟨s, masks.set opIndex level, ?_, ?_, h1.symm⟩
        · rw [← h2]
          exact getLast?_cons_of_some _ hs1
        · rw [hs2, he]
      | ok rs =>
        cases hrec : oneShotLevels lossFn name opIndex steps (masks.set opIndex level) rest with
        | mk m2 rest2 =>
          cases rest2 with
          | mk tr2 res2 =>
            rw [hrec] at h
            cases res2 with
            | ok rs2 =>
              injection h with h1 h2
              injection h2 with h2 h3
              exact Except.noConfusion h3
            | error e2 =>
              injection h with h1 h2
              injection h2 with h2 h3
              have he : e2 = e := Except.error.inj h3
              obtain ⟨s, mm, hg, hloss, hmm⟩ := ih (masks.set opIndex level) m2 tr2 e2 hrec
              refine ⟨s, mm, ?_, ?_, ?_⟩
              · rw [← h2]
                exact getLast?_cons_of_some _ (getLast?_append_of_some _ hg)
              · rw [hloss, he]
              · rw [← h1, hmm]

theorem oneShotOps_error (lossFn : List ℚ → ℕ → Except String ℚ)
    (steps : ℕ) (levels : List ℚ) :
    ∀ (ops : List String) (masks : List ℚ) (opIndex : ℕ) (m' : List ℚ)
      (tr : List SessEvent) (e : String),
      oneShotOps lossFn steps levels masks opIndex ops = (m', tr, Except.error e) →
      ∃ i s mm, tr.getLast? = some (SessEvent.measure i s mm) ∧
        lossFn mm s = Except.error e ∧ m' = mm := by
  intro ops
  induction ops with
  | nil =>
    intro masks opIndex m' tr e h
    rw [oneShotOps] at h
    injection h with h1 h2
    injection h2 with h2 h3
    exact Except.noConfusion h3
  | cons name rest ih =>
    intro masks opIndex m' tr e h
    rw [oneShotOps] at h
    cases hlev : oneShotLevels lossFn name opIndex steps masks levels with
    | mk m1 rest1 =>
      cases rest1 with
      | mk tr1 res1 =>
        rw [hlev] at h
        cases res1 with
        | error e1 =>
          injection h with h1 h2
          injection h2 with h2 h3
          have he : e1 = e := Except.error.inj h3
          obtain ⟨s, mm, hg, hloss, hmm⟩ :=
            oneShotLevels_error lossFn name opIndex steps levels masks m1 tr1 e1 hlev
          refine ⟨opIndex, s, mm, ?_, ?_, ?_⟩
          · rw [← h2]
            exact hg
          · rw [hloss, he]
          · rw [← h1, hmm]
        | ok rs =>
          simp only [] at h
          cases hrec : oneShotOps lossFn steps levels (m1.set opIndex 0) (opIndex + 1) rest with
          | mk m2 rest2 =>
            cases rest2 with
            | mk tr2 res2 =>
              rw [hrec] at h
              cases res2 with
              | ok rs2 =>
                injection h with h1 h2
                injection h2 with h2 h3
                exact Except.noConfusion h3
              | error e2 =>
                injection h with h1 h2
                injection h2 with h2 h3
                have he : e2 = e := Except.error.inj h3
                obtain ⟨i, s, mm, hg, hloss, hmm⟩ :=
                  ih (m1.set opIndex 0) (opIndex + 1) m2 tr2 e2 hrec
                refine ⟨i, s, mm, ?_, ?_, ?_⟩
                · rw [← h2]
                  exact getLast?_append_of_some _ (getLast?_cons_of_some _ hg)
                · rw [hloss, he]
                · rw [← h1, hmm]

/-- Claim C9 (counterexample to partial-result accessibility): with one op
and levels `[0, 1]`, one step each, and a loss run failing once the mask is
fully pruned, the call propagates `"boom"` and returns no analysis: the
record appended for the successful baseline measurement is lost with the
raised error, not accessible to the caller. -/
theorem one_shot_error_partial_results_cex :
    (one_shot_ks_loss_sensitivity ["w"] [0, 1] 1 failingLossOnPruned).result =
      Except.error "boom" ∧
    (one_shot_ks_loss_sensitivity ["w"] [0, 1] 1 failingLossOnPruned).result.isOk =
      false := by
  constructor <;> rfl

/-- Claim C9 (amended): an error raised partway through a one-shot sweep
propagates to the caller unchanged with no retry — the failing measurement
is the last session event — and with no mask rollback: the final session
masks are exactly the masks in effect at the failing measurement, the mask
most recently set.  The analysis object, however, is local to the call, so
the partial results already appended are not returned with the error. -/
theorem one_shot_error_propagation_amended (ops : List String) (levels : List ℚ)
    (steps : ℕ) (lossFn : List ℚ → ℕ → Except String ℚ) (e : String)
    (h : (one_shot_ks_loss_sensitivity ops levels steps lossFn).result =
      Except.error e) :
    ∃ i s mm,
      (one_shot_ks_loss_sensitivity ops levels steps lossFn).trace.getLast? =
        some (SessEvent.measure i s mm) ∧
      lossFn mm s = Except.error e ∧
      (one_shot_ks_loss_sensitivity ops levels steps lossFn).masks = mm := by
  rw [one_shot_ks_loss_sensitivity] at h ⊢
  cases hops : oneShotOps lossFn steps levels (List.replicate ops.length 0) 0 ops with
  | mk m1 rest1 =>
    cases rest1 with
    | mk tr1 res1 =>
      simp only [] at h ⊢
      rw [hops] at h
      simp only [] at h
      cases res1 with
      | ok rs => exact Except.noConfusion h
      | error e1 =>
        have he : e1 = e := Except.error.inj h
        obtain ⟨i, s, mm, hg, hloss, hmm⟩ :=
          oneShotOps_error lossFn steps levels ops (List.replicate ops.length 0)
            0 m1 tr1 e1 hops
        refine ⟨i, s, mm, ?_, ?_, hmm⟩
        · exact getLast?_cons_of_some _ hg
        · rw [hloss, he]

theorem one_shot_error_propagation_amended_witness :
    ∃ i s mm,
      (one_shot_ks_loss_sensitivity ["w"] [0, 1] 1 failingLossOnPruned).trace.getLast? =
        some (SessEvent.measure i s mm) ∧
      failingLossOnPruned mm s = Except.error "boom" ∧
      (one_shot_ks_loss_sensitivity ["w"] [0, 1] 1 failingLossOnPruned).masks = mm :=
  one_shot_error_propagation_amended ["w"] [0, 1] 1 failingLossOnPruned "boom" (by rfl)
